import Mathlib

/-!
# Verification of the disnake-ext-components core

Shallow embedding of the custom-id codec (`impl/custom_id.py`,
`internal/regex.py`), the standard-library parsers
(`impl/parser/stdlib.py`), the component factory (`impl/factory.py`,
legacy `disnake_ext_components/params.py` / `listener.py`) and the
component manager (`impl/manager.py`), with theorems settling the spec
claims about them.
-/

namespace DisnakeComponents

/-! ## Custom-id codec (`CustomID.make_spec`, `regex.format_to_pattern`,
`CustomID.complete`, `CustomID.match`)

`make_spec` builds the format string `name + sep + "{f1}" + sep + "{f2}"...`
(just `name` when there are no fields).  `format_to_pattern` escapes every
regex metacharacter except the braces and replaces each `{field}` placeholder
with a lazy capturing group `(?P<field>.*?)`; `CustomID.match` then runs
`pattern.fullmatch` on the incoming custom id.  We embed the compiled pattern
as an alternating list of literal and group tokens (faithful as long as the
name and separator contain no braces, so that the placeholder substitution
only rewrites the field slots), and give the lazy full-match semantics of the
Python `re` engine directly: a lazy group tries the shortest capture first,
and `.` (no DOTALL flag) matches any character except a newline. -/

/-- One token of the compiled custom-id pattern: a literal run of characters
(the escaped name or separator) or one lazy capturing group `(?P<f>.*?)`. -/
inductive Tok where
  | lit (l : List Char)
  | group
deriving DecidableEq

/-- Backtracking search for one lazy group: try capture lengths `k`,
`k + 1`, ... (shortest first, exactly the preference order of `.*?`),
requiring the captured segment to be newline-free (`.` without DOTALL),
and accept the first length for which the rest of the pattern matches
the rest of the string.  `fuel` bounds the search; `s.length + 1 - k`
attempts always suffice. -/
def tryCaptures (f : List Char → Option (List (List Char))) (s : List Char) :
    Nat → Nat → Option (List (List Char))
  | _, 0 => none
  | k, fuel + 1 =>
    if k ≤ s.length then
      if (s.take k).contains '\n' then none
      else
        match f (s.drop k) with
        | some gs => some (s.take k :: gs)
        | none => tryCaptures f s (k + 1) fuel
    else none

/-- Full-string match of a token list against a string, returning the list
of captured groups in order.  This is `pattern.fullmatch(custom_id)` for the
patterns produced by `format_to_pattern`: literals must match exactly, and
each lazy group takes the shortest newline-free capture that lets the rest
of the pattern consume the rest of the string. -/
def lazyMatch : List Tok → List Char → Option (List (List Char))
  | [], s => if s = [] then some [] else none
  | Tok.lit l :: rest, s =>
    if l.isPrefixOf s then lazyMatch rest (s.drop l.length) else none
  | Tok.group :: rest, s =>
    tryCaptures (fun t => lazyMatch rest t) s 0 (s.length + 1)

/-- The token lists contributed by the fields of `make_spec`: each field
contributes the separator literal followed by one capturing group (the
leading separator comes from `name + sep`, the later ones from
`sep.join`). -/
def specToksAux (sep : List Char) : Nat → List Tok
  | 0 => []
  | n + 1 => Tok.lit sep :: Tok.group :: specToksAux sep n

/-- The compiled pattern of `CustomID.make_spec(*fields, name, sep)` with
`n` fields: the literal name followed by `n` repetitions of
(separator literal, lazy group).  With no fields the spec is just the
name. -/
def makeSpecToks (name sep : List Char) (n : Nat) : List Tok :=
  Tok.lit name :: specToksAux sep n

/-- `CustomID.complete`: `str.format_map` on the spec interleaves the name,
the separator and the already-dumped field values in order; with no fields
the result is the name itself. -/
def completeCustomId (name sep : List Char) (values : List (List Char)) :
    List Char :=
  name ++ values.flatMap (fun v => sep ++ v)

/-- Number of capturing groups of a token list. -/
def countGroups : List Tok → Nat
  | [] => 0
  | Tok.lit _ :: rest => countGroups rest
  | Tok.group :: rest => 1 + countGroups rest

/-- Reassemble a token list from a list of captured groups (the string a
match with those groups must have consumed). -/
def renderToks : List Tok → List (List Char) → List Char
  | [], _ => []
  | Tok.lit l :: rest, gs => l ++ renderToks rest gs
  | Tok.group :: rest, [] => renderToks rest []
  | Tok.group :: rest, g :: gs => g ++ renderToks rest gs

/-! ## Standard-library parsers (`impl/parser/stdlib.py`)

Values travelling through the parsers are modelled by `PyVal`; each parser
is a `loads`/`dumps` pair over them.  `Except String` models raised
exceptions. -/

/-- A runtime value handled by the stdlib parsers. -/
inductive PyVal where
  | vint (i : Int)
  | vbool (b : Bool)
  | vstr (s : String)
  | vnone
deriving DecidableEq

/-- Python truthiness for the modelled values (`bool(v)`): `0`, `False`,
`""` and `None` are falsy. -/
def pyTruthy : PyVal → Bool
  | PyVal.vint i => i ≠ 0
  | PyVal.vbool b => b
  | PyVal.vstr s => s ≠ ""
  | PyVal.vnone => false

/-- Digit tail of a Python base-10 integer literal: digits with single
underscores allowed between digits only. -/
def pyDigits : List Char → Nat → Option Nat
  | [], acc => some acc
  | '_' :: c :: rest, acc =>
    if c.isDigit then pyDigits rest (acc * 10 + (c.toNat - 48)) else none
  | c :: rest, acc =>
    if c.isDigit then pyDigits rest (acc * 10 + (c.toNat - 48)) else none

/-- Unsigned part of `int(s, 10)`: at least one digit, then `pyDigits`. -/
def pyIntNat : List Char → Option Nat
  | [] => none
  | c :: rest => if c.isDigit then pyDigits rest (c.toNat - 48) else none

/-- Signed part of `int(s, 10)`: one optional `+`/`-` then digits. -/
def pyIntCore : List Char → Option Int
  | '+' :: rest => (pyIntNat rest).map Int.ofNat
  | '-' :: rest => (pyIntNat rest).map (fun n => -(n : Int))
  | rest => (pyIntNat rest).map Int.ofNat

/-- `int(argument, 10)` as used by `IntParser.loads`: surrounding whitespace
is stripped, then an optionally signed run of digits (with underscores
between digits) is read; anything else raises `ValueError`. -/
def pyIntParse (s : String) : Except String Int :=
  match pyIntCore (((s.data.dropWhile Char.isWhitespace).reverse.dropWhile
      Char.isWhitespace).reverse) with
  | some i => Except.ok i
  | none => Except.error "invalid literal for int with base 10"

/-- `_DEFAULT_TRUES` of `BoolParser`. -/
def defaultTrues : List String := ["true", "t", "yes", "y", "1"]

/-- `_DEFAULT_FALSES` of `BoolParser`. -/
def defaultFalses : List String := ["false", "f", "no", "n", "0"]

/-- `BoolParser.loads` with the default true/false string sets: membership
in the trues wins, then the falses, anything else raises. -/
def boolLoads (argument : String) : Except String Bool :=
  if argument ∈ defaultTrues then Except.ok true
  else if argument ∈ defaultFalses then Except.ok false
  else Except.error "Failed to parse into a bool."

/-- `BoolParser.dumps`: `"1"` for `True`, `"0"` for `False`. -/
def boolDumps (argument : Bool) : String :=
  if argument then "1" else "0"

/-- A parser as the dispatch-relevant triple used by `UnionParser`:
its `loads`, its `dumps`, and its `default_types()` membership test used
by `UnionParser.dumps` to select the parser owning a runtime value. -/
structure PParser where
  loadsFn : String → Except String PyVal
  dumpsFn : PyVal → Except String String
  accepts : PyVal → Bool

/-- The default signed base-10 `IntParser` (`loads` is `int(arg, 10)`,
`dumps` is `str(arg)`). -/
def intPParser : PParser where
  loadsFn s := (pyIntParse s).map PyVal.vint
  dumpsFn v :=
    match v with
    | PyVal.vint i => Except.ok (toString i)
    | _ => Except.error "not an int"
  accepts v := match v with | PyVal.vint _ => true | _ => false

/-- The default `BoolParser`. -/
def boolPParser : PParser where
  loadsFn s := (boolLoads s).map PyVal.vbool
  dumpsFn v :=
    match v with
    | PyVal.vbool b => Except.ok (boolDumps b)
    | _ => Except.error "not a bool"
  accepts v := match v with | PyVal.vbool _ => true | _ => false

/-- `StringParser` (`from_funcs(lambda _, arg: arg, str)`). -/
def strPParser : PParser where
  loadsFn s := Except.ok (PyVal.vstr s)
  dumpsFn v :=
    match v with
    | PyVal.vstr s => Except.ok s
    | _ => Except.error "not a str"
  accepts v := match v with | PyVal.vstr _ => true | _ => false

/-- The default strict `NoneParser`: only loads the empty string (to
`None`) and only dumps `None` (to the empty string). -/
def nonePParser : PParser where
  loadsFn s :=
    if s = "" then Except.ok PyVal.vnone
    else Except.error "Strict NoneParsers can only load the empty string."
  dumpsFn v :=
    match v with
    | PyVal.vnone => Except.ok ""
    | _ => Except.error "Strict NoneParsers can only dump None."
  accepts v := match v with | PyVal.vnone => true | _ => false

/-- The sequential try-each loop of `UnionParser.loads`: each inner
parser's exception is suppressed and the first success is returned. -/
def unionLoadsGo (argument : String) : List PParser → Except String PyVal
  | [] => Except.error "Failed to parse input to any type in the Union."
  | p :: rest =>
    match p.loadsFn argument with
    | Except.ok v => Except.ok v
    | Except.error _ => unionLoadsGo argument rest

/-- `UnionParser.loads`: with an optional union and an empty argument,
quick-return `None` without consulting any parser; otherwise try the inner
parsers sequentially, suppressing their exceptions, and return the first
success; raise if all fail. -/
def unionLoads (optional : Bool) (parsers : List PParser)
    (argument : String) : Except String PyVal :=
  if argument = "" ∧ optional = true then Except.ok PyVal.vnone
  else unionLoadsGo argument parsers

/-- The dispatch loop of `UnionParser.dumps`: the first inner parser whose
accepted-type set contains the runtime value's type dumps it. -/
def unionDumpsGo (argument : PyVal) : List PParser → Except String String
  | [] => Except.error "Failed to parse input to any type in the Union."
  | p :: rest =>
    if p.accepts argument then p.dumpsFn argument
    else unionDumpsGo argument rest

/-- `UnionParser.dumps`: with an optional union and a *falsy* argument
(`if not argument and self.optional`), return the empty string; otherwise
dispatch to the first inner parser whose accepted-type set contains the
runtime value; raise if none does. -/
def unionDumps (optional : Bool) (parsers : List PParser)
    (argument : PyVal) : Except String String :=
  if pyTruthy argument = false ∧ optional = true then Except.ok ""
  else unionDumpsGo argument parsers

/-- Worker for `pySplit`: scan the characters left to right, starting a new
segment after each leftmost non-overlapping occurrence of the separator.
The fuel is only a structural-recursion device; `s.length` is always
enough. -/
def pySplitGo (sep : List Char) : Nat → List Char → List (List Char)
  | _, [] => [[]]
  | 0, s => [s]
  | fuel + 1, c :: rest =>
    if sep.isPrefixOf (c :: rest) then
      [] :: pySplitGo sep fuel ((c :: rest).drop sep.length)
    else
      match pySplitGo sep fuel rest with
      | [] => [[c]]
      | seg :: segs => (c :: seg) :: segs

/-- Python `str.split(sep)` for a nonempty separator: split on each
leftmost non-overlapping occurrence; the empty string yields `[""]`. -/
def pySplit (sep s : List Char) : List (List Char) :=
  if sep = [] then [s] else pySplitGo sep s.length s

/-- `str.split(sep)` on `String`s. -/
def pySplitStr (sep s : String) : List String :=
  (pySplit sep.data s.data).map (fun l => String.mk l)

/-- Python `str.isspace`: true iff the string is nonempty and every
character is whitespace (so the empty string is *not* space). -/
def pyIsSpace (s : String) : Bool :=
  s ≠ "" && s.data.all Char.isWhitespace

/-- Sequence a list of `Except` computations, stopping at the first
error (the semantics of a Python comprehension over fallible calls). -/
def exceptMapM {ε α β : Type} (f : α → Except ε β) :
    List α → Except ε (List β)
  | [] => Except.ok []
  | a :: rest =>
    match f a with
    | Except.error e => Except.error e
    | Except.ok b =>
      match exceptMapM f rest with
      | Except.error e => Except.error e
      | Except.ok bs => Except.ok (b :: bs)

/-- `CollectionParser.loads`: split the argument on the *configured*
separator, drop the parts that are entirely whitespace, and parse each
remaining part with the inner parser. -/
def collectionLoads (inner : String → Except String PyVal) (sep : String)
    (argument : String) : Except String (List PyVal) :=
  exceptMapM inner ((pySplitStr sep argument).filter (fun p => ¬ pyIsSpace p))

/-- `CollectionParser.dumps`: dump every item and join with a *hard-coded*
`","` — the configured separator is not consulted (this is exactly what the
source does). -/
def collectionDumps (inner : PyVal → Except String String)
    (argument : List PyVal) : Except String String :=
  (exceptMapM inner argument).map (fun parts => String.intercalate "," parts)

/-- `TupleParser.loads`: split the argument on the separator; raise if the
number of parts differs from the number of inner parsers, otherwise parse
each part with the corresponding inner parser in declared order. -/
def tupleLoads (inner : List (String → Except String PyVal)) (sep : String)
    (argument : String) : Except String (List PyVal) :=
  let parts := pySplitStr sep argument
  if parts.length ≠ inner.length then
    Except.error "Expected as many arguments as inner parsers."
  else
    exceptMapM (fun pq : (String → Except String PyVal) × String => pq.1 pq.2)
      (inner.zip parts)

/-! ## Record factory `loads` (`impl/factory.py`) and the legacy
per-parameter conversion (`disnake_ext_components/params.py`,
`listener.py`) -/

/-- An aggregated conversion failure: `ConversionError(message, parameter,
errors)` names a *single* parameter together with the errors of each of its
failed converters. -/
structure ConvErr where
  paramName : String
  errors : List String
deriving DecidableEq

/-- One listener parameter: its name, its converters in declared order, its
default, and whether it is optional. -/
structure ParamModel where
  name : String
  converters : List (String → Except String PyVal)
  default : PyVal
  optional : Bool

/-- `ParamInfo._convert_raw`: try each converter in order; the first success
returns immediately (with an empty error list); if all fail, return the
errors of every converter in order (the value slot stays empty and the
caller substitutes the default). -/
def convertRaw (argument : String) :
    List (String → Except String PyVal) → Option PyVal × List String
  | [] => (none, [])
  | c :: rest =>
    match c argument with
    | Except.ok v => (some v, [])
    | Except.error e =>
      match convertRaw argument rest with
      | (some v, _) => (some v, [])
      | (none, errs) => (none, e :: errs)

/-- `ParamInfo.convert` on a plain string argument (no regex validation):
run `_convert_raw`; if there were no errors, or the parameter is optional,
return the converted value (or the default); otherwise raise one
`ConversionError` naming this parameter and listing every converter
error. -/
def paramConvert (p : ParamModel) (argument : String) : Except ConvErr PyVal :=
  match convertRaw argument p.converters with
  | (res, errs) =>
    if errs.isEmpty ∨ p.optional then Except.ok (res.getD p.default)
    else Except.error ⟨p.name, errs⟩

/-- The listener's conversion loop: convert each custom-id parameter in
order with `param.convert`; the first `ConversionError` raised propagates
immediately, aborting the remaining parameters. -/
def listenerConvertAll (ps : List ParamModel) (args : List String) :
    Except ConvErr (List (String × PyVal)) :=
  exceptMapM (fun pa : ParamModel × String =>
      (paramConvert pa.1 pa.2).map (fun v => (pa.1.name, v)))
    (ps.zip args)

/-- `ComponentFactory.loads`: look up each parameter's parser and run its
`loads`; the dict comprehension evaluates the fields in order, skips fields
whose raw value is the empty string, and lets the first parser exception
propagate immediately. -/
def factoryLoads (parsers : List (String × (String → Except String PyVal)))
    (params : List (String × String)) :
    Except String (List (String × PyVal)) :=
  exceptMapM (fun pv : String × String =>
      match parsers.lookup pv.1 with
      | none => Except.error "KeyError"
      | some parser => (parser pv.2).map (fun v => (pv.1, v)))
    (params.filter (fun pv => pv.2 ≠ ""))

/-! ## Component manager (`impl/manager.py`)

Managers form a dot-hierarchical namespace: the parent of `"a.b"` is
`"a"`, the parent of any other dot-free name is `"root"`, and `"root"`
has no parent.  The registry state maps every manager name to its
`_components` dict (identifier → module data); managers are created
lazily with empty dicts, which the total function models directly. -/

/-- `_ModuleData`: the declaration context of a registration — the module's
name and the `id()` of the module object at registration time. -/
structure ModuleData where
  name : String
  id : Nat
deriving DecidableEq

/-- `_ModuleData.is_reload_of`: same module name, different module id. -/
def ModuleData.isReloadOf (self other : ModuleData) : Bool :=
  self.name = other.name ∧ self.id ≠ other.id

/-- `_ModuleData.is_active`: the module name is still in `sys.modules` and
the module object is still the same one (`sysModules` models `sys.modules`
as a map from module name to object id). -/
def ModuleData.isActive (self : ModuleData)
    (sysModules : List (String × Nat)) : Bool :=
  match sysModules.lookup self.name with
  | none => false
  | some i => i = self.id

/-- `ComponentManager.parent`, derived from the name: no parent for
`"root"`, the root manager for any other dot-free name, and the name up to
the last dot otherwise (`name.rsplit(".", 1)`). -/
def parentName (name : String) : Option String :=
  if (pySplitStr "." name).length = 1 then
    if name = "root" then none else some "root"
  else some (String.intercalate "." (pySplitStr "." name).dropLast)

/-- `_recurse_parents`: the manager itself, then its parents up to and
including the root.  The fuel (one more than the number of dotted
segments) always covers the whole parent chain. -/
def recurseParentsAux : Nat → String → List String
  | 0, _ => []
  | fuel + 1, n =>
    n :: (match parentName n with
          | none => []
          | some p => recurseParentsAux fuel p)

/-- The manager chain from a manager to the root, innermost first. -/
def recurseParents (name : String) : List String :=
  recurseParentsAux ((pySplitStr "." name).length + 1) name

/-- The order in which `invoke` enters the callback wrappers: `reversed`
of the parent chain, i.e. root first, owning manager last. -/
def wrapperEntryOrder (owner : String) : List String :=
  (recurseParents owner).reverse

/-- `invoke`'s exception walk over a manager chain: offer each manager's
exception handler the exception in order and stop at the first handler
that returns `True`.  Returns the managers actually offered the exception
and the one that handled it, if any. -/
def exceptionWalk (handled : String → Bool) :
    List String → List String × Option String
  | [] => ([], none)
  | m :: rest =>
    if handled m then ([m], some m)
    else
      match exceptionWalk handled rest with
      | (offered, h) => (m :: offered, h)

/-- `default_exception_handler` as (handled, logged): every non-root
manager passes the exception down unhandled (and logs nothing); the root
logs the exception and reports it handled. -/
def defaultExceptionHandler (name : String) : Bool × Bool :=
  if name = "root" then (true, true) else (false, false)

/-- The registry state: each manager name's `_components` dict, as an
association list from identifier to the registration's module data. -/
def Registry : Type := String → List (String × ModuleData)

/-- Association-list lookup on a components dict. -/
def alookup : List (String × ModuleData) → String → Option ModuleData
  | [], _ => none
  | (k, v) :: rest, key => if k = key then some v else alookup rest key

/-- Remove a key from a components dict (`dict.pop`'s removal part). -/
def aremove : List (String × ModuleData) → String → List (String × ModuleData)
  | [], _ => []
  | (k, v) :: rest, key =>
    if k = key then aremove rest key else (k, v) :: aremove rest key

/-- Dict assignment `d[identifier] = module_data` (overwrites). -/
def ainsert (l : List (String × ModuleData)) (key : String)
    (md : ModuleData) : List (String × ModuleData) :=
  (key, md) :: aremove l key

/-- The registry with one manager's components replaced. -/
def setComps (st : Registry) (mgr : String)
    (comps : List (String × ModuleData)) : Registry :=
  fun n => if n = mgr then comps else st n

/-- The empty registry: every manager starts with an empty components
dict. -/
def emptyRegistry : Registry := fun _ => []

/-- The installation loop of `register`: store the identifier → module-data
mapping on each manager of the given chain. -/
def installAll (st : Registry) (mgrs : List String) (ident : String)
    (md : ModuleData) : Registry :=
  mgrs.foldl (fun s m => setComps s m (ainsert (s m) ident md)) st

/-- `ComponentManager.register` on the registry state: the duplicate check
looks the identifier up in the *root* manager's components; if found and
the new registration is not a reload of the old one (same module name,
different id), raise the duplicate-identifier error; otherwise install the
mapping on the registering manager and every ancestor.  Note that the
liveness (`is_active`) of the previous registration is never consulted
here. -/
def registerModel (st : Registry) (mgr ident : String) (md : ModuleData) :
    Except String Registry :=
  match alookup (st "root") ident with
  | some old =>
    if md.isReloadOf old then
      Except.ok (installAll st (recurseParents mgr) ident md)
    else Except.error "Cannot register component with duplicate identifier."
  | none => Except.ok (installAll st (recurseParents mgr) ident md)

/-- `dict.pop(identifier)`: remove the key, or fail with `KeyError` when it
is absent. -/
def popComp (comps : List (String × ModuleData)) (ident : String) :
    Option (List (String × ModuleData)) :=
  if (alookup comps ident).isSome then some (aremove comps ident) else none

/-- Pop the identifier from every manager of a chain, failing on the first
manager that does not hold it. -/
def popAll (ident : String) : Registry → List String → Option Registry
  | st, [] => some st
  | st, m :: rest =>
    match popComp (st m) ident with
    | none => none
    | some comps => popAll ident (setComps st m comps) rest

/-- `ComponentManager.deregister`: look the identifier up in *this*
manager's components (`self._components[identifier]`, a `KeyError` when
absent), then pop the mapping from the component's owning manager and
every one of its ancestors.  `none` models the raised `KeyError`. -/
def deregisterModel (st : Registry) (self owner ident : String) :
    Option Registry :=
  match alookup (st self) ident with
  | none => none
  | some _ => popAll ident st (recurseParents owner)

/-- Whether an `Except` computation raised. -/
def exceptIsError {ε α : Type} : Except ε α → Bool
  | Except.error _ => true
  | Except.ok _ => false

/-! ## Helper lemmas -/

theorem alookup_ainsert_self (l : List (String × ModuleData)) (key : String)
    (md : ModuleData) : alookup (ainsert l key md) key = some md := by
  simp [ainsert, alookup]

theorem alookup_aremove_self (l : List (String × ModuleData)) (key : String) :
    alookup (aremove l key) key = none := by
  induction l with
  | nil => simp [aremove, alookup]
  | cons h t ih =>
    obtain ⟨k, v⟩ := h
    by_cases hk : k = key <;> simp [aremove, alookup, hk, ih]

theorem setComps_self (st : Registry) (mgr : String)
    (comps : List (String × ModuleData)) :
    setComps st mgr comps mgr = comps := by
  simp [setComps]

theorem setComps_ne (st : Registry) (mgr n : String)
    (comps : List (String × ModuleData)) (h : n ≠ mgr) :
    setComps st mgr comps n = st n := by
  simp [setComps, h]

theorem installAll_cons (st : Registry) (a : String) (t : List String)
    (ident : String) (md : ModuleData) :
    installAll st (a :: t) ident md =
      installAll (setComps st a (ainsert (st a) ident md)) t ident md := rfl

theorem installAll_not_mem (mgrs : List String) (st : Registry)
    (ident : String) (md : ModuleData) (m : String) (h : m ∉ mgrs) :
    installAll st mgrs ident md m = st m := by
  induction mgrs generalizing st with
  | nil => rfl
  | cons a t ih =>
    have hma : m ≠ a := fun he => h (he ▸ List.mem_cons_self a t)
    have hmt : m ∉ t := fun hmem => h (List.mem_cons_of_mem _ hmem)
    rw [installAll_cons, ih _ hmt, setComps_ne _ _ _ _ hma]

theorem installAll_lookup (mgrs : List String) (st : Registry)
    (ident : String) (md : ModuleData) (m : String) (h : m ∈ mgrs) :
    alookup (installAll st mgrs ident md m) ident = some md := by
  induction mgrs generalizing st with
  | nil => cases h
  | cons a t ih =>
    rw [installAll_cons]
    by_cases ht : m ∈ t
    · exact ih _ ht
    · have hma : m = a := by
        rcases List.mem_cons.mp h with h1 | h2
        · exact h1
        · exact absurd h2 ht
      subst hma
      rw [installAll_not_mem _ _ _ _ _ ht, setComps_self]
      exact alookup_ainsert_self _ _ _

theorem popComp_eq_some (comps res : List (String × ModuleData))
    (ident : String) (h : popComp comps ident = some res) :
    res = aremove comps ident := by
  unfold popComp at h
  split at h
  · exact (Option.some.inj h).symm
  · cases h

theorem popAll_cons (ident : String) (st : Registry) (m : String)
    (rest : List String) :
    popAll ident st (m :: rest) =
      match popComp (st m) ident with
      | none => none
      | some comps => popAll ident (setComps st m comps) rest := rfl

theorem popAll_preserves_none (ms : List String) (ident : String)
    (st st' : Registry) (m : String) (hm : alookup (st m) ident = none)
    (h : popAll ident st ms = some st') : alookup (st' m) ident = none := by
  induction ms generalizing st with
  | nil =>
    simp only [popAll] at h
    exact (Option.some.inj h) ▸ hm
  | cons a t ih =>
    rw [popAll_cons] at h
    cases hpc : popComp (st a) ident with
    | none => rw [hpc] at h; cases h
    | some comps =>
      rw [hpc] at h
      apply ih _ _ h
      by_cases hma : m = a
      · subst hma
        rw [setComps_self, popComp_eq_some _ _ _ hpc]
        exact alookup_aremove_self _ _
      · rw [setComps_ne _ _ _ _ hma]; exact hm

theorem popAll_lookup_none (ms : List String) :
    ∀ (ident : String) (st st' : Registry) (m : String), m ∈ ms →
      popAll ident st ms = some st' → alookup (st' m) ident = none := by
  induction ms with
  | nil => intro _ _ _ _ hm; cases hm
  | cons a t ih =>
    intro ident st st' m hm h
    rw [popAll_cons] at h
    cases hpc : popComp (st a) ident with
    | none => rw [hpc] at h; cases h
    | some comps =>
      rw [hpc] at h
      rcases List.mem_cons.mp hm with rfl | hmt
      · apply popAll_preserves_none t ident _ _ _ _ h
        rw [setComps_self, popComp_eq_some _ _ _ hpc]
        exact alookup_aremove_self _ _
      · exact ih ident _ st' m hmt h

theorem exceptMapM_of_map_ok {ε α β : Type} (f : α → Except ε β) :
    ∀ (l : List α) (vs : List β), l.map f = vs.map Except.ok →
      exceptMapM f l = Except.ok vs := by
  intro l
  induction l with
  | nil =>
    intro vs h
    cases vs with
    | nil => rfl
    | cons v vt => simp at h
  | cons a t ih =>
    intro vs h
    cases vs with
    | nil => simp at h
    | cons v vt =>
      simp only [List.map_cons, List.cons.injEq] at h
      simp [exceptMapM, h.1, ih vt h.2]

theorem prefix_append_drop (l s : List Char) (h : l.isPrefixOf s) :
    l ++ s.drop l.length = s := by
  obtain ⟨t, rfl⟩ := List.isPrefixOf_iff_prefix.mp h
  rw [List.drop_left]

theorem contains_false_of_take_le (s : List Char) (c : Char) (k0 k : Nat)
    (hle : k0 ≤ k) (hc : (s.take k).contains c = false) :
    (s.take k0).contains c = false := by
  have hmem : c ∉ s.take k := by simpa using hc
  have hmem0 : c ∉ s.take k0 := by
    intro hm
    apply hmem
    have he : s.take k0 = (s.take k).take k0 := by
      rw [List.take_take, min_eq_left hle]
    exact List.take_subset _ _ (he ▸ hm)
  simpa using hmem0

theorem tryCaptures_sound (f : List Char → Option (List (List Char)))
    (s : List Char) :
    ∀ (fuel k0 : Nat) (out : List (List Char)),
      tryCaptures f s k0 fuel = some out →
      ∃ k gs, k0 ≤ k ∧ k ≤ s.length ∧ (s.take k).contains '\n' = false ∧
        f (s.drop k) = some gs ∧ out = s.take k :: gs := by
  intro fuel
  induction fuel with
  | zero => intro k0 out h; simp [tryCaptures] at h
  | succ n ih =>
    intro k0 out h
    unfold tryCaptures at h
    by_cases hk : k0 ≤ s.length
    · rw [if_pos hk] at h
      by_cases hnl : (s.take k0).contains '\n' = true
      · rw [if_pos hnl] at h; cases h
      · rw [if_neg hnl] at h
        split at h
        · rename_i gs hf
          exact ⟨k0, gs, le_refl _, hk, by simpa using hnl, hf,
            (Option.some.inj h).symm⟩
        · rename_i hf
          obtain ⟨k, gs, h1, h2, h3, h4, h5⟩ := ih (k0 + 1) out h
          exact ⟨k, gs, le_trans (Nat.le_succ _) h1, h2, h3, h4, h5⟩
    · rw [if_neg hk] at h; cases h

theorem tryCaptures_complete (f : List Char → Option (List (List Char)))
    (s : List Char) :
    ∀ (fuel k0 k : Nat) (gs : List (List Char)),
      k0 ≤ k → k ≤ s.length → k < k0 + fuel →
      (s.take k).contains '\n' = false →
      f (s.drop k) = some gs →
      (tryCaptures f s k0 fuel).isSome = true := by
  intro fuel
  induction fuel with
  | zero => intro k0 k gs h1 _ h3 _ _; omega
  | succ n ih =>
    intro k0 k gs h1 h2 h3 hnl hf
    unfold tryCaptures
    rw [if_pos (le_trans h1 h2)]
    have hnl0 : (s.take k0).contains '\n' = false :=
      contains_false_of_take_le s _ k0 k h1 hnl
    rw [if_neg (by simpa using hnl0)]
    split
    · simp
    · rename_i hnone
      by_cases he : k0 = k
      · subst he; rw [hf] at hnone; cases hnone
      · exact ih (k0 + 1) k gs (by omega) h2 (by omega) hnl hf

theorem tryCaptures_min (f : List Char → Option (List (List Char)))
    (s : List Char) :
    ∀ (fuel k0 k : Nat) (gs : List (List Char)),
      k0 ≤ k → k ≤ s.length → k < k0 + fuel →
      (∀ j, k0 ≤ j → j < k → f (s.drop j) = none) →
      (s.take k).contains '\n' = false →
      f (s.drop k) = some gs →
      tryCaptures f s k0 fuel = some (s.take k :: gs) := by
  intro fuel
  induction fuel with
  | zero => intro k0 k gs h1 _ h3 _ _ _; omega
  | succ n ih =>
    intro k0 k gs h1 h2 h3 hmin hnl hf
    unfold tryCaptures
    rw [if_pos (le_trans h1 h2)]
    have hnl0 : (s.take k0).contains '\n' = false :=
      contains_false_of_take_le s _ k0 k h1 hnl
    rw [if_neg (by simpa using hnl0)]
    by_cases he : k0 = k
    · subst he
      rw [hf]
    · have hlt : k0 < k := lt_of_le_of_ne h1 he
      rw [hmin k0 (le_refl _) hlt]
      exact ih (k0 + 1) k gs (by omega) h2 (by omega)
        (fun j hj1 hj2 => hmin j (by omega) hj2) hnl hf

theorem lazyMatch_sound :
    ∀ (toks : List Tok) (s : List Char) (gs : List (List Char)),
      lazyMatch toks s = some gs →
      renderToks toks gs = s ∧ gs.length = countGroups toks ∧
        ∀ g ∈ gs, g.contains '\n' = false := by
  intro toks
  induction toks with
  | nil =>
    intro s gs h
    unfold lazyMatch at h
    by_cases hs : s = []
    · rw [if_pos hs] at h
      obtain rfl := Option.some.inj h
      subst hs
      exact ⟨rfl, rfl, by simp⟩
    · rw [if_neg hs] at h; cases h
  | cons t rest ih =>
    cases t with
    | lit l =>
      intro s gs h
      unfold lazyMatch at h
      by_cases hp : l.isPrefixOf s
      · rw [if_pos hp] at h
        obtain ⟨h1, h2, h3⟩ := ih _ _ h
        refine ⟨?_, by simpa [countGroups] using h2, h3⟩
        show l ++ renderToks rest gs = s
        rw [h1]
        exact prefix_append_drop l s hp
      · rw [if_neg hp] at h; cases h
    | group =>
      intro s gs h
      unfold lazyMatch at h
      obtain ⟨k, gs', hk0, hk, hnl, hf, hout⟩ :=
        tryCaptures_sound _ _ _ _ _ h
      obtain ⟨h1, h2, h3⟩ := ih _ _ hf
      subst hout
      refine ⟨?_, by simp [countGroups, h2, Nat.add_comm], ?_⟩
      · show s.take k ++ renderToks rest gs' = s
        rw [h1, List.take_append_drop]
      · intro g hg
        rcases List.mem_cons.mp hg with rfl | hg'
        · exact hnl
        · exact h3 g hg'

theorem lazyMatch_complete :
    ∀ (toks : List Tok) (gs : List (List Char)),
      gs.length = countGroups toks →
      (∀ g ∈ gs, g.contains '\n' = false) →
      (lazyMatch toks (renderToks toks gs)).isSome = true := by
  intro toks
  induction toks with
  | nil => intro gs _ _; simp [lazyMatch, renderToks]
  | cons t rest ih =>
    cases t with
    | lit l =>
      intro gs hlen hnl
      have hpre : l.isPrefixOf (l ++ renderToks rest gs) :=
        List.isPrefixOf_iff_prefix.mpr ⟨_, rfl⟩
      show (lazyMatch (Tok.lit l :: rest)
        (l ++ renderToks rest gs)).isSome = true
      unfold lazyMatch
      rw [if_pos hpre, List.drop_left]
      exact ih gs (by simpa [countGroups] using hlen) hnl
    | group =>
      intro gs hlen hnl
      cases gs with
      | nil => simp only [List.length_nil, countGroups] at hlen; omega
      | cons g gt =>
        have hlen' : gt.length = countGroups rest := by
          simp only [List.length_cons, countGroups] at hlen; omega
        have hnl' : ∀ x ∈ gt, x.contains '\n' = false :=
          fun x hx => hnl x (List.mem_cons_of_mem _ hx)
        obtain ⟨gs', hgs'⟩ := Option.isSome_iff_exists.mp (ih gt hlen' hnl')
        show (lazyMatch (Tok.group :: rest)
          (g ++ renderToks rest gt)).isSome = true
        unfold lazyMatch
        apply tryCaptures_complete _ _ _ 0 g.length gs'
        · exact Nat.zero_le _
        · rw [List.length_append]; exact Nat.le_add_right _ _
        · rw [List.length_append]; omega
        · rw [List.take_left]; exact hnl g (List.mem_cons_self _ _)
        · show lazyMatch rest ((g ++ renderToks rest gt).drop g.length) =
            some gs'
          rw [List.drop_left]; exact hgs'

theorem countGroups_specToksAux (sep : List Char) :
    ∀ n, countGroups (specToksAux sep n) = n := by
  intro n
  induction n with
  | zero => rfl
  | succ m ih => simp [specToksAux, countGroups, ih, Nat.add_comm]

theorem countGroups_makeSpecToks (name sep : List Char) (n : Nat) :
    countGroups (makeSpecToks name sep n) = n := by
  show countGroups (Tok.lit name :: specToksAux sep n) = n
  simp [countGroups, countGroups_specToksAux]

theorem renderToks_specAux (sep : List Char) :
    ∀ vs : List (List Char),
      renderToks (specToksAux sep vs.length) vs =
        vs.flatMap (fun v => sep ++ v) := by
  intro vs
  induction vs with
  | nil => rfl
  | cons v vt ih =>
    show renderToks
      (Tok.lit sep :: Tok.group :: specToksAux sep vt.length) (v :: vt) = _
    simp [renderToks, ih, List.flatMap_cons, List.append_assoc]

theorem renderToks_spec (name sep : List Char) (vs : List (List Char)) :
    renderToks (makeSpecToks name sep vs.length) vs =
      completeCustomId name sep vs := by
  show name ++ renderToks (specToksAux sep vs.length) vs = _
  rw [renderToks_specAux]
  rfl

theorem lazyMatch_chain (c : Char) :
    ∀ vs : List (List Char),
      (∀ v ∈ vs.dropLast, c ∉ v) →
      (∀ v ∈ vs, v.contains '\n' = false) →
      lazyMatch (specToksAux [c] vs.length)
          (vs.flatMap (fun v => [c] ++ v)) = some vs := by
  intro vs
  induction vs with
  | nil => intro _ _; rfl
  | cons v vt ih =>
    intro hsep hnl
    have hshape : (v :: vt).flatMap (fun x => [c] ++ x) =
        [c] ++ (v ++ vt.flatMap (fun x => [c] ++ x)) := by
      simp [List.flatMap_cons, List.append_assoc]
    rw [hshape]
    show lazyMatch (Tok.lit [c] :: Tok.group :: specToksAux [c] vt.length)
      ([c] ++ (v ++ vt.flatMap (fun x => [c] ++ x))) = some (v :: vt)
    unfold lazyMatch
    rw [if_pos (List.isPrefixOf_iff_prefix.mpr ⟨_, rfl⟩), List.drop_left]
    have hsep' : ∀ x ∈ vt.dropLast, c ∉ x := by
      intro x hx
      apply hsep
      cases vt with
      | nil => simp at hx
      | cons w wt =>
        rw [List.dropLast_cons₂]
        exact List.mem_cons_of_mem _ hx
    have hnl' : ∀ x ∈ vt, x.contains '\n' = false :=
      fun x hx => hnl x (List.mem_cons_of_mem _ hx)
    have hmin : ∀ j, 0 ≤ j → j < v.length →
        lazyMatch (specToksAux [c] vt.length)
          ((v ++ vt.flatMap (fun x => [c] ++ x)).drop j) = none := by
      intro j _ hj
      have hdrop : (v ++ vt.flatMap (fun x => [c] ++ x)).drop j =
          v.drop j ++ vt.flatMap (fun x => [c] ++ x) := by
        rw [List.drop_append_eq_append_drop, Nat.sub_eq_zero_of_le
          (le_of_lt hj), List.drop_zero]
      cases vt with
      | nil =>
        rw [hdrop]
        show lazyMatch [] (v.drop j ++ [].flatMap (fun x => [c] ++ x)) = none
        simp [lazyMatch, List.drop_eq_nil_iff]
        omega
      | cons w wt =>
        have hcv : c ∉ v := hsep v (by
          rw [List.dropLast_cons₂]
          exact List.mem_cons_self _ _)
        have hget : v.drop j = v[j] :: v.drop (j + 1) :=
          List.drop_eq_getElem_cons hj
        have hnp : ¬ ([c].isPrefixOf
            ((v ++ (w :: wt).flatMap (fun x => [c] ++ x)).drop j) = true) := by
          rw [hdrop, hget]
          intro hpre
          simp [List.isPrefixOf] at hpre
          exact hcv (hpre ▸ List.getElem_mem hj)
        show lazyMatch (Tok.lit [c] :: Tok.group :: specToksAux [c] wt.length)
          ((v ++ (w :: wt).flatMap (fun x => [c] ++ x)).drop j) = none
        unfold lazyMatch
        rw [if_neg hnp]
    have hf : lazyMatch (specToksAux [c] vt.length)
        ((v ++ vt.flatMap (fun x => [c] ++ x)).drop v.length) = some vt := by
      rw [List.drop_left]
      exact ih hsep' hnl'
    have hres := tryCaptures_min
      (fun t => lazyMatch (specToksAux [c] vt.length) t)
      (v ++ vt.flatMap (fun x => [c] ++ x))
      ((v ++ vt.flatMap (fun x => [c] ++ x)).length + 1)
      0 v.length vt (Nat.zero_le _)
      (by rw [List.length_append]; exact Nat.le_add_right _ _)
      (by rw [List.length_append]; omega)
      hmin
      (by rw [List.take_left]; exact hnl v (List.mem_cons_self _ _))
      hf
    rw [List.take_left] at hres
    exact hres

/-! ## Claim theorems -/

/-- C1 (counterexample): with a two-field spec (name `n`, separator `|`)
and the legal value tuple `("x|y", "z")` — every field value is a plain
string, which the template happily formats — the encoded custom id
`n|x|y|z` decodes to `("x", "y|z")`, not to the original tuple: the lazy
groups split at the *first* separator occurrence, so
`decode(encode(values)) == values` fails as soon as a non-final field
value contains the separator. -/
theorem C1_counterexample :
    lazyMatch (makeSpecToks ['n'] ['|'] 2)
        (completeCustomId ['n'] ['|'] [['x', '|', 'y'], ['z']]) =
      some [['x'], ['y', '|', 'z']] ∧
    [['x'], ['y', '|', 'z']] ≠ [['x', '|', 'y'], ['z']] :=
  ⟨by decide, by decide⟩

/-- C1 (amended): the compiled matcher, as a full-string match, accepts
exactly the strings that the template can produce from *newline-free*
field values (each `.*?` group matches any characters except newlines, so
producible-with-newlines strings are rejected, and everything accepted is
producible); and `decode(encode(values)) == values` does hold whenever the
separator is a single character, every field value is newline-free, and no
field value except possibly the last contains the separator
character. -/
theorem C1_spec_matcher :
    (∀ (name sep : List Char) (n : Nat) (s : List Char),
      (lazyMatch (makeSpecToks name sep n) s).isSome = true ↔
        ∃ vs : List (List Char), vs.length = n ∧
          (∀ g ∈ vs, g.contains '\n' = false) ∧
          completeCustomId name sep vs = s) ∧
    (∀ (name : List Char) (c : Char) (vs : List (List Char)),
      (∀ v ∈ vs.dropLast, c ∉ v) →
      (∀ v ∈ vs, v.contains '\n' = false) →
      lazyMatch (makeSpecToks name [c] vs.length)
          (completeCustomId name [c] vs) = some vs) := by
  constructor
  · intro name sep n s
    constructor
    · intro h
      obtain ⟨gs, hgs⟩ := Option.isSome_iff_exists.mp h
      obtain ⟨h1, h2, h3⟩ := lazyMatch_sound _ _ _ hgs
      have hlen : gs.length = n := by
        rw [h2, countGroups_makeSpecToks]
      subst hlen
      rw [renderToks_spec] at h1
      exact ⟨gs, rfl, h3, h1⟩
    · rintro ⟨vs, hlen, hnl, henc⟩
      subst hlen
      rw [← henc, ← renderToks_spec]
      exact lazyMatch_complete _ vs
        (countGroups_makeSpecToks name sep vs.length).symm hnl
  · intro name c vs hsep hnl
    show lazyMatch (Tok.lit name :: specToksAux [c] vs.length)
      (name ++ vs.flatMap (fun v => [c] ++ v)) = some vs
    unfold lazyMatch
    rw [if_pos (List.isPrefixOf_iff_prefix.mpr ⟨_, rfl⟩), List.drop_left]
    exact lazyMatch_chain c vs hsep hnl

/-- C1 (witness): the amended exact-decode applied at a concrete
separator-free two-field tuple, and the matcher-accepts direction at the
encoding of that tuple. -/
theorem C1_witness :
    lazyMatch (makeSpecToks ['n'] ['|'] 2)
        (completeCustomId ['n'] ['|'] [['x'], ['y']]) =
      some [['x'], ['y']] ∧
    (lazyMatch (makeSpecToks ['n'] ['|'] 2)
        (completeCustomId ['n'] ['|'] [['x'], ['y']])).isSome = true :=
  ⟨C1_spec_matcher.2 ['n'] '|' [['x'], ['y']] (by decide) (by decide),
    (C1_spec_matcher.1 ['n'] ['|'] 2
      (completeCustomId ['n'] ['|'] [['x'], ['y']])).mpr
      ⟨[['x'], ['y']], by decide, by decide, rfl⟩⟩

/-- C2 (counterexample): decoding the raw strings `["abc", "nan"]` against
two `int` fields — so *both* fields fail their parser — raises a
`ConversionError` naming only the first field `"a"`; the second failing
field `"b"` (whose own conversion also fails) is absent from the failure
the caller receives, contradicting the claim that the caller receives one
aggregated failure listing every failing field. -/
theorem C2_counterexample :
    listenerConvertAll
        [⟨"a", [intPParser.loadsFn], PyVal.vnone, false⟩,
         ⟨"b", [intPParser.loadsFn], PyVal.vnone, false⟩]
        ["abc", "nan"] =
      Except.error ⟨"a", ["invalid literal for int with base 10"]⟩ ∧
    paramConvert ⟨"b", [intPParser.loadsFn], PyVal.vnone, false⟩ "nan" =
      Except.error ⟨"b", ["invalid literal for int with base 10"]⟩ ∧
    factoryLoads [("a", intPParser.loadsFn), ("b", intPParser.loadsFn)]
        [("a", "abc"), ("b", "nan")] =
      Except.error "invalid literal for int with base 10" :=
  ⟨rfl, rfl, rfl⟩

/-- C2 (amended): failures are aggregated *within* one field — when every
converter of a field fails, the field's single `ConversionError` lists the
error of every converter in declared order — but *across* fields the
conversion loop raises the first failing field's error immediately,
so the caller learns only about the first failing field. -/
theorem C2_conversion_aggregation :
    (∀ (convs : List (String → Except String PyVal)) (argument : String)
        (es : List String),
      convs.map (fun c => c argument) = es.map Except.error →
      convertRaw argument convs = (none, es)) ∧
    (∀ (p : ParamModel) (argument : String) (es : List String),
      p.optional = false → es ≠ [] →
      convertRaw argument p.converters = (none, es) →
      paramConvert p argument = Except.error ⟨p.name, es⟩) ∧
    (∀ (p : ParamModel) (ps : List ParamModel) (argument : String)
        (args : List String) (e : ConvErr),
      paramConvert p argument = Except.error e →
      listenerConvertAll (p :: ps) (argument :: args) = Except.error e) ∧
    (∀ (parsers : List (String × (String → Except String PyVal)))
        (pv : String × String) (ps : List (String × String)) (e : String)
        (f : String → Except String PyVal),
      pv.2 ≠ "" → parsers.lookup pv.1 = some f → f pv.2 = Except.error e →
      factoryLoads parsers (pv :: ps) = Except.error e) := by
  refine ⟨?_, ?_, ?_, ?_⟩
  · intro convs
    induction convs with
    | nil =>
      intro argument es h
      cases es with
      | nil => rfl
      | cons e et => simp at h
    | cons c t ih =>
      intro argument es h
      cases es with
      | nil => simp at h
      | cons e et =>
        simp only [List.map_cons, List.cons.injEq] at h
        simp [convertRaw, h.1, ih argument et h.2]
  · intro p argument es hopt hne h
    unfold paramConvert
    rw [h]
    simp [hopt, hne]
  · intro p ps argument args e h
    simp [listenerConvertAll, exceptMapM, h, Except.map]
  · intro parsers pv ps e f hne hlook herr
    simp [factoryLoads, exceptMapM, hne, hlook, herr, Except.map]

/-- C2 (witness): the amended first-field-raises behaviour applied at the
concrete two-failing-fields input. -/
theorem C2_witness :
    listenerConvertAll
        [⟨"a", [intPParser.loadsFn], PyVal.vnone, false⟩,
         ⟨"b", [intPParser.loadsFn], PyVal.vnone, false⟩]
        ["abc", "nan"] =
      Except.error ⟨"a", ["invalid literal for int with base 10"]⟩ :=
  C2_conversion_aggregation.2.2.1
    ⟨"a", [intPParser.loadsFn], PyVal.vnone, false⟩
    [⟨"b", [intPParser.loadsFn], PyVal.vnone, false⟩]
    "abc" ["nan"] ⟨"a", ["invalid literal for int with base 10"]⟩ rfl

/-- C3: `UnionParser.loads` (non-optional) tries the inner parsers in
declared order and the first success wins; for the union `[int, bool]`,
loading `"1"` yields the integer `1` (the int parser wins) while loading
`"true"` yields the boolean `True` (the int parser fails and the bool
parser is tried next). -/
theorem C3_union_order :
    (∀ (p : PParser) (ps : List PParser) (argument : String),
      unionLoads false (p :: ps) argument =
        match p.loadsFn argument with
        | Except.ok v => Except.ok v
        | Except.error _ => unionLoads false ps argument) ∧
    unionLoads false [intPParser, boolPParser] "1" =
      Except.ok (PyVal.vint 1) ∧
    unionLoads false [intPParser, boolPParser] "true" =
      Except.ok (PyVal.vbool true) := by
  refine ⟨?_, rfl, rfl⟩
  intro p ps argument
  have hcond : ¬(argument = "" ∧ false = true) := by simp
  unfold unionLoads
  simp only [if_neg hcond]
  cases h : p.loadsFn argument <;> simp [unionLoadsGo, h]

/-- C4 (code bug): for the optional union over `[int, NoneType]`,
`UnionParser.dumps` tests `not argument` — Python *truthiness* — instead of
`argument is None`, so dumping the legal value `0` yields the empty string,
which `loads` maps back to `None`, not `0`: the round-trip law
`loads(dumps(v)) == v` fails at `v = 0` (while it holds at e.g. `v = 1`),
contradicting the documented reversibility contract of `Parser.dumps`. -/
theorem C4_optional_union_zero_bug :
    unionDumps true [intPParser, nonePParser] (PyVal.vint 0) =
      Except.ok "" ∧
    unionLoads true [intPParser, nonePParser] "" = Except.ok PyVal.vnone ∧
    PyVal.vnone ≠ PyVal.vint 0 ∧
    unionDumps true [intPParser, nonePParser] (PyVal.vint 1) =
      Except.ok "1" ∧
    unionLoads true [intPParser, nonePParser] "1" =
      Except.ok (PyVal.vint 1) :=
  ⟨rfl, rfl, by decide, rfl, rfl⟩

/-- C5: on an exception the chain of managers from the owning manager up to
the root is offered the exception in that order, stopping at the first
handler that reports handled; for the chain `root > a > a.b` with default
handlers, `a.b` and `a` decline and the root's default handler (which logs)
reports handled, ending the walk. -/
theorem C5_exception_cascade :
    (∀ (handled : String → Bool) (pre : List String) (m : String)
        (post : List String),
      (∀ x ∈ pre, handled x = false) → handled m = true →
      exceptionWalk handled (pre ++ m :: post) = (pre ++ [m], some m)) ∧
    recurseParents "a.b" = ["a.b", "a", "root"] ∧
    wrapperEntryOrder "a.b" = ["root", "a", "a.b"] ∧
    exceptionWalk (fun n => (defaultExceptionHandler n).1)
        (recurseParents "a.b") = (["a.b", "a", "root"], some "root") ∧
    defaultExceptionHandler "root" = (true, true) ∧
    defaultExceptionHandler "a.b" = (false, false) ∧
    defaultExceptionHandler "a" = (false, false) := by
  refine ⟨?_, rfl, rfl, rfl, rfl, rfl, rfl⟩
  intro handled pre
  induction pre with
  | nil =>
    intro m post _ hm
    simp [exceptionWalk, hm]
  | cons a t ih =>
    intro m post hpre hm
    have ha : handled a = false := hpre a (List.mem_cons_self a t)
    have ht : ∀ x ∈ t, handled x = false :=
      fun x hx => hpre x (List.mem_cons_of_mem _ hx)
    simp [exceptionWalk, ha, ih m post ht hm]

/-- C5 (witness): the stop-at-first-handled walk applied to the concrete
chain of `a.b` with the default handlers. -/
theorem C5_witness :
    exceptionWalk (fun n => (defaultExceptionHandler n).1)
        (["a.b", "a"] ++ "root" :: []) = (["a.b", "a"] ++ ["root"], some "root") :=
  C5_exception_cascade.1 (fun n => (defaultExceptionHandler n).1)
    ["a.b", "a"] "root" [] (by decide) (by decide)

/-- C6 (counterexample): with an identifier registered from module `m1`
whose module was since unloaded (it is absent from `sys.modules`, so the
previous registration is *not* live), registering the same identifier from
a different module `m2` still raises the duplicate-identifier error: the
silent-supersede path requires the new registration to be a *reload of the
same module*, not merely that the old one is no longer live. -/
theorem C6_counterexample :
    registerModel
        (fun n => if n = "root" then [("id", ⟨"m1", 1⟩)] else [])
        "root" "id" ⟨"m2", 2⟩ =
      Except.error "Cannot register component with duplicate identifier." ∧
    alookup ((fun n : String => if n = "root" then [("id", ⟨"m1", 1⟩)] else [])
        "root") "id" = some ⟨"m1", 1⟩ ∧
    ModuleData.isActive ⟨"m1", 1⟩ [] = false :=
  ⟨rfl, rfl, rfl⟩

/-- C6 (amended): `register` raises the duplicate-identifier error iff the
identifier is already present in the root manager's component map and the
new registration is *not a reload* of the previous one (same module name,
different module id); when it is such a reload, the new type silently
supersedes the old registration.  Liveness of the previous registration is
not consulted at registration time. -/
theorem C6_register_duplicate :
    ∀ (st : Registry) (mgr ident : String) (md : ModuleData),
      ((∃ e, registerModel st mgr ident md = Except.error e) ↔
        (∃ old, alookup (st "root") ident = some old ∧
          md.isReloadOf old = false)) ∧
      (∀ old, alookup (st "root") ident = some old →
        md.isReloadOf old = true →
        registerModel st mgr ident md =
          Except.ok (installAll st (recurseParents mgr) ident md)) := by
  intro st mgr ident md
  constructor
  · constructor
    · rintro ⟨e, he⟩
      cases hl : alookup (st "root") ident with
      | none => simp [registerModel, hl] at he
      | some old =>
        by_cases hr : md.isReloadOf old = true
        · simp [registerModel, hl, hr] at he
        · exact ⟨old, rfl, by simpa using hr⟩
    · rintro ⟨old, hl, hr⟩
      exact ⟨"Cannot register component with duplicate identifier.",
        by simp [registerModel, hl, hr]⟩
  · intro old hl hr
    simp [registerModel, hl, hr]

/-- C6 (witness): the reload-supersede path at a concrete registry: the
identifier is taken, but the new registration is from the same module with
a different id, so it succeeds. -/
theorem C6_witness :
    registerModel
        (fun n => if n = "root" then [("id", ⟨"m1", 1⟩)] else [])
        "root" "id" ⟨"m1", 2⟩ =
      Except.ok (installAll
        (fun n => if n = "root" then [("id", ⟨"m1", 1⟩)] else [])
        (recurseParents "root") "id" ⟨"m1", 2⟩) :=
  (C6_register_duplicate
      (fun n => if n = "root" then [("id", ⟨"m1", 1⟩)] else [])
      "root" "id" ⟨"m1", 2⟩).2 ⟨"m1", 1⟩ rfl rfl

/-- C7 (code bug): `CollectionParser.loads` splits on the *configured*
separator (here `";"`), but `CollectionParser.dumps` joins with a
hard-coded `","` — ignoring the configured separator that its own
constructor documents — so with separator `";"` the round trip of
`["a", "b"]` produces `"a,b"`, which loads back as the single-element
collection `["a,b"]`. -/
theorem C7_collection_sep_bug :
    collectionDumps strPParser.dumpsFn [PyVal.vstr "a", PyVal.vstr "b"] =
      Except.ok "a,b" ∧
    collectionLoads strPParser.loadsFn ";" "a,b" =
      Except.ok [PyVal.vstr "a,b"] ∧
    [PyVal.vstr "a,b"] ≠ [PyVal.vstr "a", PyVal.vstr "b"] ∧
    collectionLoads strPParser.loadsFn ";" "a;b" =
      Except.ok [PyVal.vstr "a", PyVal.vstr "b"] :=
  ⟨rfl, rfl, by decide, rfl⟩

/-- C8: `TupleParser.loads` splits its argument on the separator and raises
whenever the number of parts differs from the number of inner parsers
(never truncating); when the counts agree, each part is parsed by the
corresponding inner parser in declared order. -/
theorem C8_tuple_arity :
    ∀ (inner : List (String → Except String PyVal)) (sep argument : String),
      ((pySplitStr sep argument).length ≠ inner.length →
        tupleLoads inner sep argument =
          Except.error "Expected as many arguments as inner parsers.") ∧
      (∀ vs : List PyVal, (pySplitStr sep argument).length = inner.length →
        (inner.zip (pySplitStr sep argument)).map (fun pq => pq.1 pq.2) =
          vs.map Except.ok →
        tupleLoads inner sep argument = Except.ok vs) := by
  intro inner sep argument
  constructor
  · intro hne
    unfold tupleLoads
    simp [hne]
  · intro vs hlen hok
    unfold tupleLoads
    simp only [hlen, ne_eq, not_true_eq_false, if_false]
    exact exceptMapM_of_map_ok _ _ _ hok

/-- C8 (witness): the arity check and the in-order parse at concrete
inputs: `"a,5,6"` against two parsers raises, `"a,5"` parses to
`("a", 5)`. -/
theorem C8_witness :
    tupleLoads [strPParser.loadsFn, intPParser.loadsFn] "," "a,5,6" =
      Except.error "Expected as many arguments as inner parsers." ∧
    tupleLoads [strPParser.loadsFn, intPParser.loadsFn] "," "a,5" =
      Except.ok [PyVal.vstr "a", PyVal.vint 5] :=
  ⟨(C8_tuple_arity [strPParser.loadsFn, intPParser.loadsFn] "," "a,5,6").1
      (by decide),
    (C8_tuple_arity [strPParser.loadsFn, intPParser.loadsFn] "," "a,5").2
      [PyVal.vstr "a", PyVal.vint 5] (by decide) rfl⟩

/-- C9 (counterexample): `deregister` is not idempotent: after a
successful deregistration of the only registration, a second
`deregister` call for the same record type raises a `KeyError`
(`self._components[identifier]` no longer exists) instead of leaving the
state unchanged. -/
theorem C9_counterexample :
    (deregisterModel
        (fun n => if n = "root" then [("X", ⟨"m", 1⟩)] else [])
        "root" "root" "X").isSome = true ∧
    ((deregisterModel
        (fun n => if n = "root" then [("X", ⟨"m", 1⟩)] else [])
        "root" "root" "X").bind
      (fun st2 => deregisterModel st2 "root" "root" "X")).isNone = true :=
  ⟨rfl, rfl⟩

/-- C9 (amended): a successful `deregister` removes the identifier → type
mapping from the owning manager and every ancestor, but it is *not*
idempotent: a second `deregister` for the same record type on the same
manager raises a `KeyError`. -/
theorem C9_deregister :
    ∀ (st : Registry) (self owner ident : String) (st' : Registry),
      deregisterModel st self owner ident = some st' →
      (∀ m ∈ recurseParents owner, alookup (st' m) ident = none) ∧
      (self ∈ recurseParents owner →
        deregisterModel st' self owner ident = none) := by
  intro st self owner ident st' h
  unfold deregisterModel at h
  cases hl : alookup (st self) ident with
  | none => rw [hl] at h; cases h
  | some md =>
    rw [hl] at h
    refine ⟨fun m hm => popAll_lookup_none _ _ _ _ _ hm h, fun hself => ?_⟩
    have hnone : alookup (st' self) ident = none :=
      popAll_lookup_none _ _ _ _ _ hself h
    unfold deregisterModel
    rw [hnone]

/-- C9 (witness): the removal-everywhere and second-call-fails behaviour
applied at a concrete one-manager registry. -/
theorem C9_witness :
    alookup ((setComps
        (fun n => if n = "root" then [("X", ⟨"m", 1⟩)] else []) "root" [])
        "root") "X" = none ∧
    deregisterModel
        (setComps
          (fun n => if n = "root" then [("X", ⟨"m", 1⟩)] else []) "root" [])
        "root" "root" "X" = none := by
  have h := C9_deregister
    (fun n => if n = "root" then [("X", ⟨"m", 1⟩)] else []) "root" "root" "X"
    (setComps (fun n => if n = "root" then [("X", ⟨"m", 1⟩)] else []) "root" [])
    rfl
  exact ⟨h.1 "root" (by decide), h.2 (by decide)⟩

/-- C10: the duplicate-identifier check of `register` reads only the root
manager's component map; a successful registration installs the mapping on
the registering manager and every ancestor up to the root; consequently a
second live registration under the same identifier on a *sibling* manager
raises the duplicate error (the sibling's identifier reached the root's
map through its own registration). -/
theorem C10_register_scope :
    (∀ (st st' : Registry) (mgr mgr' ident : String) (md : ModuleData),
      st "root" = st' "root" →
      exceptIsError (registerModel st mgr ident md) =
        exceptIsError (registerModel st' mgr' ident md)) ∧
    (∀ (st : Registry) (mgr ident : String) (md : ModuleData)
        (st' : Registry),
      registerModel st mgr ident md = Except.ok st' →
      ∀ m ∈ recurseParents mgr, alookup (st' m) ident = some md) ∧
    registerModel emptyRegistry "a" "X" ⟨"m1", 1⟩ =
      Except.ok (installAll emptyRegistry (recurseParents "a") "X"
        ⟨"m1", 1⟩) ∧
    exceptIsError (registerModel
        (installAll emptyRegistry (recurseParents "a") "X" ⟨"m1", 1⟩)
        "b" "X" ⟨"m2", 2⟩) = true := by
  refine ⟨?_, ?_, rfl, rfl⟩
  · intro st st' mgr mgr' ident md h
    unfold registerModel
    rw [← h]
    cases alookup (st "root") ident with
    | none => rfl
    | some old =>
      by_cases hr : md.isReloadOf old = true <;> simp [hr, exceptIsError]
  · intro st mgr ident md st' h
    cases hl : alookup (st "root") ident with
    | none =>
      simp only [registerModel, hl, Except.ok.injEq] at h
      intro m hm
      rw [← h]
      exact installAll_lookup _ _ _ _ _ hm
    | some old =>
      by_cases hr : md.isReloadOf old = true
      · simp only [registerModel, hl, hr, if_true, Except.ok.injEq] at h
        intro m hm
        rw [← h]
        exact installAll_lookup _ _ _ _ _ hm
      · simp [registerModel, hl, hr] at h

/-- C10 (witness): after registering on manager `"a"`, the mapping is
visible on `"a"` and on the root. -/
theorem C10_witness :
    alookup ((installAll emptyRegistry (recurseParents "a") "X" ⟨"m1", 1⟩)
        "root") "X" = some ⟨"m1", 1⟩ ∧
    alookup ((installAll emptyRegistry (recurseParents "a") "X" ⟨"m1", 1⟩)
        "a") "X" = some ⟨"m1", 1⟩ :=
  ⟨C10_register_scope.2.1 emptyRegistry "a" "X" ⟨"m1", 1⟩ _ rfl "root"
      (by decide),
    C10_register_scope.2.1 emptyRegistry "a" "X" ⟨"m1", 1⟩ _ rfl "a"
      (by decide)⟩

end DisnakeComponents
